import Mathlib

/-!
Verification of the BufferChain data-exchange substrate of the c7a/Thrill
repository, shallowly embedded from `src/c7a/data/buffer_chain.hpp`,
`src/thrill/io/ufs_file_base.cpp` and (where only the spec describes the
code) from the specification of the emitter/iterator/scatter layer.
-/

namespace C7A

/-- Modelled from the spec: `BinaryBuffer` is an owned, immutable byte region
of known size (the header `binary_buffer.hpp` is not part of the sources).
Bytes are modelled as natural numbers below 256. -/
structure BinaryBuffer where
  data : List Nat
deriving DecidableEq, Repr

/-- Modelled from the spec: `BinaryBufferBuilder` is a mutable byte sink with
an append cursor and a monotonically increasing element count (number of
records serialized so far). -/
structure BinaryBufferBuilder where
  data : List Nat
  elements : Nat
deriving DecidableEq, Repr

/-- Modelled from the spec: detaching the builder transfers its backing
storage to a new BinaryBuffer and resets the builder to empty. -/
def BinaryBufferBuilder.detach (_b : BinaryBufferBuilder) : BinaryBufferBuilder :=
  { data := [], elements := 0 }

/-- Modelled from the spec: sealing a builder (`BinaryBuffer(b)` in the
source) produces an immutable buffer holding the builder's bytes. -/
def BinaryBufferBuilder.seal (b : BinaryBufferBuilder) : BinaryBuffer :=
  { data := b.data }

/-- `BufferChainElement` from `buffer_chain.hpp`: a buffer, the prefix sum of
the number of elements of previous elements and this one, and the byte offset
of the first element in the buffer. -/
structure BufferChainElement where
  buffer : BinaryBuffer
  element_count : Nat
  offset_of_first : Nat
deriving DecidableEq, Repr

/-- The `BufferChainElement` constructor with its assertion
`assert(offset_of_first == 0)`: a non-zero offset fails the assertion,
modelled as `none`. -/
def BufferChainElement.mkChecked (b : BinaryBuffer) (element_count : Nat)
    (offset : Nat) : Option BufferChainElement :=
  if offset = 0 then
    some { buffer := b, element_count := element_count, offset_of_first := offset }
  else
    none

/-- `BufferChain` from `buffer_chain.hpp`: the deque of elements and the
closed flag.  The mutex and condition variable only serialize access and are
not part of the sequential state. -/
structure BufferChain where
  elements : List BufferChainElement
  closed : Bool
deriving DecidableEq, Repr

namespace BufferChain

/-- The `BufferChain` constructor: `closed_(false)` and, on libc++, a
workaround that pushes a dummy element onto the deque and pops it again,
leaving the deque empty. -/
def new : BufferChain :=
  let c : BufferChain := { elements := [], closed := false }
  let dummy : BufferChainElement :=
    { buffer := { data := [] }, element_count := 0, offset_of_first := 0 }
  { c with elements := (c.elements ++ [dummy]).drop 1 }

/-- `BufferChain::_size`: 0 when the deque is empty, otherwise
`elements_.back().element_count`. -/
def _size (c : BufferChain) : Nat :=
  if h : c.elements.isEmpty then 0
  else (c.elements.getLast (by simpa [List.isEmpty_iff] using h)).element_count

/-- `BufferChain::size`: takes the mutex and returns `_size()`. -/
def size (c : BufferChain) : Nat := c._size

/-- `BufferChain::Append(BinaryBufferBuilder&)`: emplaces
`BufferChainElement(BinaryBuffer(b), _size() + b.elements())` at the back and
detaches the builder.  Returns the new chain together with the detached
builder. -/
def appendBuilder (c : BufferChain) (b : BinaryBufferBuilder) :
    BufferChain × BinaryBufferBuilder :=
  ({ c with elements := c.elements ++
      [{ buffer := b.seal, element_count := c._size + b.elements,
         offset_of_first := 0 }] },
   b.detach)

/-- `BufferChain::Append(BufferChainElement&&)`: emplaces the given element
at the back. -/
def appendElement (c : BufferChain) (e : BufferChainElement) : BufferChain :=
  { c with elements := c.elements ++ [e] }

/-- `BufferChain::Close`: sets `closed_ = true`. -/
def close (c : BufferChain) : BufferChain :=
  { c with closed := true }

/-- `BufferChain::IsClosed`: reads the closed flag. -/
def IsClosed (c : BufferChain) : Bool := c.closed

end BufferChain

/-- The spec's reading of `size()`: the `cumulative_element_count` of the
last element, or 0 if the chain is empty. -/
def sizeSpec (c : BufferChain) : Nat :=
  match c.elements.getLast? with
  | none => 0
  | some e => e.element_count

/-- Folding `Append(BinaryBufferBuilder&)` over a sequence of builders. -/
def applyBuilders (c : BufferChain) (bs : List BinaryBufferBuilder) : BufferChain :=
  bs.foldl (fun c b => (c.appendBuilder b).1) c

/-- The two public append operations of `BufferChain`. -/
inductive ChainAppendOp where
  | builder (b : BinaryBufferBuilder)
  | element (e : BufferChainElement)
deriving DecidableEq, Repr

/-- Apply one append operation to a chain. -/
def BufferChain.applyOp (c : BufferChain) : ChainAppendOp → BufferChain
  | ChainAppendOp.builder b => (c.appendBuilder b).1
  | ChainAppendOp.element e => c.appendElement e

/-- Apply a sequence of append operations to a chain. -/
def BufferChain.applyOps (c : BufferChain) (ops : List ChainAppendOp) : BufferChain :=
  ops.foldl BufferChain.applyOp c

/-- The `element_count` values of a chain, front to back. -/
def counts (c : BufferChain) : List Nat :=
  c.elements.map BufferChainElement.element_count

/-- Chains reachable from the freshly constructed chain when every raw
element append carries an `element_count` at least the chain's size at that
moment — as the elements produced by `OrderedBufferChain::MoveTo` into an
empty chain do. -/
inductive GoodChain : BufferChain → Prop where
  | new : GoodChain BufferChain.new
  | builder {c : BufferChain} (b : BinaryBufferBuilder) :
      GoodChain c → GoodChain (c.appendBuilder b).1
  | element {c : BufferChain} {e : BufferChainElement} :
      GoodChain c → c.size ≤ e.element_count → GoodChain (c.appendElement e)

/-- The staging map `std::map<size_t, std::vector<BufferChainElement>>` of
`OrderedBufferChain`, modelled as an association list kept sorted by key —
matching the map's ascending-key iteration order. -/
structure OrderedBufferChain where
  buffers : List (Nat × List BufferChainElement)
deriving DecidableEq, Repr

/-- `buffers_[rank].emplace_back(e)`, creating the rank's vector when the
rank is absent (`find == end`), at its sorted position as `std::map` does. -/
def mapAppendAt : List (Nat × List BufferChainElement) → Nat → BufferChainElement →
    List (Nat × List BufferChainElement)
  | [], r, e => [(r, [e])]
  | (k, v) :: rest, r, e =>
    if r < k then (r, [e]) :: (k, v) :: rest
    else if r = k then (k, v ++ [e]) :: rest
    else (k, v) :: mapAppendAt rest r e

/-- Lookup of a rank's staged vector (empty when the rank is absent). -/
def mapFind : List (Nat × List BufferChainElement) → Nat → List BufferChainElement
  | [], _ => []
  | (k, v) :: rest, r => if r = k then v else mapFind rest r

/-- `OrderedBufferChain::Append(rank, b)`: stages
`BufferChainElement(BinaryBuffer(b), b.elements())` under the sender's rank
and detaches the builder. -/
def OrderedBufferChain.append (o : OrderedBufferChain) (rank : Nat)
    (b : BinaryBufferBuilder) : OrderedBufferChain × BinaryBufferBuilder :=
  ({ buffers := mapAppendAt o.buffers rank
      { buffer := b.seal, element_count := b.elements, offset_of_first := 0 } },
   b.detach)

/-- The loop body of `OrderedBufferChain::MoveTo`: bump the running element
counter by the staged element's count and append
`BufferChainElement(buf_elem.buffer, elements)` to the target. -/
def moveStep (acc : BufferChain × Nat) (e : BufferChainElement) : BufferChain × Nat :=
  let elements := acc.2 + e.element_count
  (acc.1.appendElement
    { buffer := e.buffer, element_count := elements, offset_of_first := 0 },
   elements)

/-- `OrderedBufferChain::MoveTo(target)`: iterates over the keys in their
order and, for each key, over its staged buffers, with a running element
counter that starts at zero. -/
def OrderedBufferChain.moveTo (o : OrderedBufferChain) (target : BufferChain) :
    BufferChain :=
  (o.buffers.foldl (fun acc p => p.2.foldl moveStep acc) (target, 0)).1

/-- Staging a sequence of `(rank, builder)` appends from the empty staging
map. -/
def buildOrdered (ops : List (Nat × BinaryBufferBuilder)) : OrderedBufferChain :=
  ops.foldl (fun o p => (o.append p.1 p.2).1) { buffers := [] }

/-- Prefix-sum transcription, as the spec describes the merge: every staged
element reappears with `element_count` equal to the running total of the
staged per-block counts. -/
def withCumulative (acc : Nat) : List BufferChainElement → List BufferChainElement
  | [] => []
  | e :: es =>
      { buffer := e.buffer, element_count := acc + e.element_count,
        offset_of_first := 0 } :: withCumulative (acc + e.element_count) es

/-- Running totals of a list of per-block counts. -/
def runningTotals (acc : Nat) : List Nat → List Nat
  | [] => []
  | n :: ns => (acc + n) :: runningTotals (acc + n) ns

/-- Total number of staged elements of a list of staged blocks. -/
def totalCount (l : List BufferChainElement) : Nat :=
  (l.map BufferChainElement.element_count).sum

/-- A chain-building step as claim C7 ranges over it: either
`BufferChain::Append(BinaryBufferBuilder&)`, or staging builders in an
`OrderedBufferChain` and merging it with `MoveTo`. -/
inductive BuildOp where
  | append (b : BinaryBufferBuilder)
  | merge (stagedOps : List (Nat × BinaryBufferBuilder))
deriving DecidableEq, Repr

/-- Apply one chain-building step. -/
def BufferChain.applyBuildOp (c : BufferChain) : BuildOp → BufferChain
  | BuildOp.append b => (c.appendBuilder b).1
  | BuildOp.merge ops => (buildOrdered ops).moveTo c

/-- Apply a sequence of chain-building steps. -/
def BufferChain.applyBuildOps (c : BufferChain) (ops : List BuildOp) : BufferChain :=
  ops.foldl BufferChain.applyBuildOp c

/-- The element staged by `OrderedBufferChain::Append`:
`BufferChainElement(BinaryBuffer(b), b.elements())`. -/
def stagedElement (b : BinaryBufferBuilder) : BufferChainElement :=
  { buffer := b.seal, element_count := b.elements, offset_of_first := 0 }

/-- The IO error thrown by `THRILL_THROW_ERRNO` when `::close` fails. -/
inductive IoError where
  | closeFailed (fd : Int)
deriving DecidableEq, Repr

/-- The descriptor state of `UfsFileBase` from `ufs_file_base.cpp`: the file
descriptor (`-1` when closed), the open mode and the file name. -/
structure UfsFileBase where
  file_des : Int
  m_mode : Int
  filename : String
deriving DecidableEq, Repr

/-- `UfsFileBase::close()`: under the descriptor mutex, return immediately
when `file_des == -1`; otherwise call `::close` (whose success the oracle
`osClose` reports), throw `IoError` on failure, and set `file_des = -1` on
success. -/
def UfsFileBase.close (f : UfsFileBase) (osClose : Int → Bool) :
    Except IoError UfsFileBase :=
  if f.file_des = -1 then Except.ok f
  else if osClose f.file_des then Except.ok { f with file_des := -1 }
  else Except.error (IoError.closeFailed f.file_des)

/-- The destructor `~UfsFileBase()`: it just calls `close()`. -/
def UfsFileBase.destruct (f : UfsFileBase) (osClose : Int → Bool) :
    Except IoError UfsFileBase :=
  f.close osClose

/-- Modelled from the spec: the per-record string encoding inside a payload,
`u32 length || bytes`, little-endian (§6); the scenario's strings are ASCII,
so the code points are the bytes. -/
def encodeString (s : String) : List Nat :=
  [s.length % 256, s.length / 256 % 256, s.length / 65536 % 256,
   s.length / 16777216 % 256] ++ s.data.map Char.toNat

/-- Modelled from the spec: decoding one string record from a byte stream —
four little-endian length bytes, then that many bytes. -/
def decodeString (bytes : List Nat) : Option (String × List Nat) :=
  match bytes with
  | b0 :: b1 :: b2 :: b3 :: rest =>
      let len := b0 + 256 * b1 + 65536 * b2 + 16777216 * b3
      if len ≤ rest.length then
        some (String.mk ((rest.take len).map Char.ofNat), rest.drop len)
      else none
  | _ => none

/-- Modelled from the spec: a typed local emitter (§4.2) bound to a chain —
the missing `emitter.hpp`/`manager.hpp` are known only through the spec and
the test `manager_channels_test.cpp`. -/
structure LocalEmitter where
  builder : BinaryBufferBuilder
  chain : BufferChain

/-- Modelled from the spec: `Flush` — when the builder is non-empty, seal it
and hand it to the chain; the builder is left detached (empty). -/
def LocalEmitter.flush (em : LocalEmitter) : LocalEmitter :=
  if em.builder.data.isEmpty then em
  else
    let r := em.chain.appendBuilder em.builder
    { builder := r.2, chain := r.1 }

/-- Modelled from the spec: `emit(x)` — serialize the record into the
builder; if the builder then exceeds the 32 KiB block threshold, flush. -/
def LocalEmitter.emit (em : LocalEmitter) (s : String) : LocalEmitter :=
  let b : BinaryBufferBuilder :=
    { data := em.builder.data ++ encodeString s,
      elements := em.builder.elements + 1 }
  let em2 : LocalEmitter := { builder := b, chain := em.chain }
  if 32768 < b.data.length then em2.flush else em2

/-- Modelled from the spec: emitter `Close` — flush, then (the last and only
local sender being closed) close the chain. -/
def LocalEmitter.close (em : LocalEmitter) : BufferChain :=
  (em.flush).chain.close

/-- Modelled from the spec: the self path of the scatter protocol (§4.5) for
the source-element range `[lo, hi)`: walk the source blocks with their
cumulative counts and append (whole, by reference) every block overlapping
the range, with a recomputed cumulative element count, via
`BufferChain::Append(BufferChainElement&&)`. -/
def scatterSelfRange (src target : BufferChain) (lo hi : Nat) : BufferChain :=
  (src.elements.foldl
    (fun (acc : BufferChain × Nat) e =>
      let prev := acc.2
      let t := acc.1
      let t2 := if lo < e.element_count ∧ prev < hi then
          t.appendElement
            { buffer := e.buffer,
              element_count := t.size + (e.element_count - prev),
              offset_of_first := 0 }
        else t
      (t2, e.element_count))
    (target, 0)).1

/-- Modelled from the spec: single-worker scatter to itself (§4.5 with
N = 1) with partition offset vector `[hi]`: the worker appends the block
references covering `[0, hi)` into the channel's chain, and — every (that is,
the single) sender having closed — the chain is closed. -/
def scatterSingle (src : BufferChain) (hi : Nat) : BufferChain :=
  (scatterSelfRange src BufferChain.new 0 hi).close

/-- Modelled from the spec: the typed iterator state (§4.3): the chain, the
current block index, and the byte cursor within the block. -/
structure ChainIterator where
  chain : BufferChain
  blockIdx : Nat
  cursor : Nat
deriving DecidableEq, Repr

/-- The bytes of the iterator's indexed block (empty past the last block). -/
def blockBytes (c : BufferChain) (i : Nat) : List Nat :=
  match c.elements[i]? with
  | some e => e.buffer.data
  | none => []

/-- Modelled from the spec: `has_next` — the current block has remaining
bytes, or some later block is already present. -/
def ChainIterator.hasNext (it : ChainIterator) : Bool :=
  decide (it.cursor < (blockBytes it.chain it.blockIdx).length) ||
    decide (it.blockIdx + 1 < it.chain.elements.length)

/-- Modelled from the spec: `next()` — deserialize one record at the cursor,
advance the cursor, and advance to the next block at a block boundary;
`none` is the *exhausted* error. -/
def ChainIterator.next (it : ChainIterator) : Option (String × ChainIterator) :=
  let bytes := blockBytes it.chain it.blockIdx
  if it.cursor < bytes.length then
    match decodeString (bytes.drop it.cursor) with
    | some (s, _) =>
        let c2 := it.cursor + 4 + s.length
        if c2 < bytes.length then
          some (s, { chain := it.chain, blockIdx := it.blockIdx, cursor := c2 })
        else
          some (s, { chain := it.chain, blockIdx := it.blockIdx + 1, cursor := 0 })
    | none => none
  else
    none

/-- Modelled from the spec: `is_finished` — the chain is closed and the
cursor has consumed everything present. -/
def ChainIterator.isFinished (it : ChainIterator) : Bool :=
  it.chain.IsClosed && !it.hasNext

/-- Read up to `n` records from the iterator. -/
def readRecords (it : ChainIterator) : Nat → List String × ChainIterator
  | 0 => ([], it)
  | n + 1 =>
      match it.next with
      | some (s, it2) =>
          let r := readRecords it2 n
          (s :: r.1, r.2)
      | none => ([], it)

theorem size_eq_sizeSpec (c : BufferChain) : c.size = sizeSpec c := by
  by_cases h : c.elements = []
  · simp [BufferChain.size, BufferChain._size, sizeSpec, h]
  · simp only [BufferChain.size, BufferChain._size, sizeSpec]
    rw [dif_neg (by simp [h])]
    rw [List.getLast?_eq_getLast c.elements h]

theorem sizeSpec_appendElement (c : BufferChain) (e : BufferChainElement) :
    sizeSpec (c.appendElement e) = e.element_count := by
  simp [sizeSpec, BufferChain.appendElement, List.getLast?_concat]

theorem size_appendBuilder (c : BufferChain) (b : BinaryBufferBuilder) :
    (c.appendBuilder b).1.size = c.size + b.elements := by
  rw [size_eq_sizeSpec]
  have : (c.appendBuilder b).1 = c.appendElement
      { buffer := b.seal, element_count := c._size + b.elements,
        offset_of_first := 0 } := rfl
  rw [this, sizeSpec_appendElement]
  rfl

theorem size_applyBuilders (c : BufferChain) (bs : List BinaryBufferBuilder) :
    (applyBuilders c bs).size = c.size + (bs.map BinaryBufferBuilder.elements).sum := by
  induction bs generalizing c with
  | nil => simp [applyBuilders]
  | cons b bs ih =>
      simp only [applyBuilders, List.foldl_cons, List.map_cons, List.sum_cons]
      rw [show List.foldl (fun c b => (c.appendBuilder b).1) (c.appendBuilder b).1 bs =
            applyBuilders (c.appendBuilder b).1 bs from rfl]
      rw [ih, size_appendBuilder]
      omega

/-- C1: appending builders holding `k_i` elements to the empty chain yields a
chain whose `size()` is the sum of the `k_i`; each `Append` adds one element
whose `element_count` is the previous `size()` plus the builder's element
count. -/
theorem chain_size_is_sum_of_appended (bs : List BinaryBufferBuilder) :
    (applyBuilders BufferChain.new bs).size =
      (bs.map BinaryBufferBuilder.elements).sum ∧
    ∀ (c : BufferChain) (b : BinaryBufferBuilder),
      (c.appendBuilder b).1.elements = c.elements ++
        [{ buffer := b.seal, element_count := c.size + b.elements,
           offset_of_first := 0 }] := by
  constructor
  · have h := size_applyBuilders BufferChain.new bs
    simpa [BufferChain.new, BufferChain.size, BufferChain._size] using h
  · intro c b
    rfl

/-- C5: `Close` is idempotent — after one `Close` the chain is closed, and a
second `Close` changes neither the closed flag nor the element sequence. -/
theorem close_idempotent (c : BufferChain) :
    c.close.IsClosed = true ∧ c.close.close = c.close ∧
      c.close.elements = c.elements := by
  refine ⟨rfl, ?_, rfl⟩
  simp [BufferChain.close]

/-- C6: `size()` returns the `element_count` of the last element of the
chain, and 0 when the chain holds no elements. -/
theorem size_spec_correct (c : BufferChain) : c.size = sizeSpec c :=
  size_eq_sizeSpec c

/-- C9: a newly constructed `BufferChain` is empty and open: `size()` is 0,
`Begin()` equals `End()` (the element sequence is empty), and `IsClosed()` is
false. -/
theorem new_chain_empty_open :
    BufferChain.new.size = 0 ∧ BufferChain.new.elements = [] ∧
      BufferChain.new.IsClosed = false := by
  refine ⟨rfl, rfl, rfl⟩

theorem counts_appendElement (c : BufferChain) (e : BufferChainElement) :
    counts (c.appendElement e) = counts c ++ [e.element_count] := by
  simp [counts, BufferChain.appendElement]

theorem size_eq_getLast_counts (c : BufferChain) :
    c.size = ((counts c).getLast?).getD 0 := by
  rw [size_eq_sizeSpec]
  unfold sizeSpec counts
  rw [List.getLast?_map]
  cases c.elements.getLast? <;> rfl

theorem chain_counts_appendElement_le {c : BufferChain} {e : BufferChainElement}
    (hc : List.Chain' (· ≤ ·) (counts c)) (h : c.size ≤ e.element_count) :
    List.Chain' (· ≤ ·) (counts (c.appendElement e)) := by
  rw [counts_appendElement, List.chain'_append]
  refine ⟨hc, List.chain'_singleton _, ?_⟩
  intro x hx y hy
  simp only [List.head?_cons, Option.mem_def, Option.some.injEq] at hy
  subst hy
  have hx' : (counts c).getLast? = some x := hx
  have hs := size_eq_getLast_counts c
  rw [hx'] at hs
  simp only [Option.getD_some] at hs
  omega

/-- C3 is false as stated: appending a builder to a closed chain does change
the chain's element sequence. -/
theorem append_after_close_cex :
    ((BufferChain.new.close).appendBuilder { data := [7], elements := 1 }).1.elements ≠
      (BufferChain.new.close).elements := by
  decide

/-- C3 (amended): `Close` sets the closed flag, but neither `Append` overload
consults it — an `Append` invoked after `Close` still appends its element
exactly as it would on the open chain; refraining from appending after close
is an obligation on the callers. -/
theorem append_after_close_appends (c : BufferChain) (b : BinaryBufferBuilder)
    (e : BufferChainElement) :
    (c.close.appendBuilder b).1.elements =
      c.elements ++ [{ buffer := b.seal, element_count := c.size + b.elements,
                       offset_of_first := 0 }] ∧
    (c.close.appendElement e).elements = c.elements ++ [e] ∧
    (c.close.appendBuilder b).1.closed = true ∧
    (c.close.appendElement e).closed = true :=
  ⟨rfl, rfl, rfl, rfl⟩

/-- C3 amended witness at a concrete chain and builder. -/
theorem append_after_close_appends_witness :
    (BufferChain.new.close.appendBuilder { data := [7], elements := 1 }).1.elements =
      BufferChain.new.elements ++
        [{ buffer := { data := [7] }, element_count := 1, offset_of_first := 0 }] :=
  (append_after_close_appends BufferChain.new { data := [7], elements := 1 }
    { buffer := { data := [] }, element_count := 0, offset_of_first := 0 }).1

/-- C4 is false as stated: the raw element append accepts an element whose
`element_count` is below the current last one, producing a decreasing
sequence. -/
theorem counts_nondecreasing_cex :
    ¬ List.Chain' (· ≤ ·) (counts (BufferChain.new.applyOps
      [ChainAppendOp.element
        { buffer := { data := [] }, element_count := 5, offset_of_first := 0 },
       ChainAppendOp.element
        { buffer := { data := [] }, element_count := 1, offset_of_first := 0 }])) := by
  intro hc
  have h : counts (BufferChain.new.applyOps
      [ChainAppendOp.element
        { buffer := { data := [] }, element_count := 5, offset_of_first := 0 },
       ChainAppendOp.element
        { buffer := { data := [] }, element_count := 1, offset_of_first := 0 }]) =
      [5, 1] := rfl
  rw [h, List.chain'_cons] at hc
  exact absurd hc.1 (by decide)

/-- C4 (amended): in every chain reachable from the empty chain by
`Append(BinaryBufferBuilder&)` and by `Append(BufferChainElement&&)` whose
element carries an `element_count` at least the chain's size at that moment,
the `element_count` values are non-decreasing from front to back. -/
theorem counts_nondecreasing_of_good {c : BufferChain} (h : GoodChain c) :
    List.Chain' (· ≤ ·) (counts c) := by
  induction h with
  | new => simp [counts, BufferChain.new]
  | @builder c b hg ih =>
      have h2 : c.size ≤ c._size + b.elements := by
        have : c.size = c._size := rfl
        omega
      exact chain_counts_appendElement_le ih h2
  | @element c e hg hle ih =>
      exact chain_counts_appendElement_le ih hle

/-- C4 amended witness: a concrete reachable chain with non-decreasing
counts. -/
theorem counts_nondecreasing_of_good_witness :
    List.Chain' (· ≤ ·)
      (counts ((BufferChain.new.appendBuilder { data := [1, 2], elements := 2 }).1)) :=
  counts_nondecreasing_of_good
    (GoodChain.builder { data := [1, 2], elements := 2 } GoodChain.new)

theorem withCumulative_append (n : Nat) (l₁ l₂ : List BufferChainElement) :
    withCumulative n (l₁ ++ l₂) =
      withCumulative n l₁ ++ withCumulative (n + totalCount l₁) l₂ := by
  induction l₁ generalizing n with
  | nil => simp [withCumulative, totalCount]
  | cons e l ih => simp [withCumulative, totalCount, ih, Nat.add_assoc]

theorem withCumulative_offset_zero (n : Nat) (l : List BufferChainElement) :
    ∀ e ∈ withCumulative n l, e.offset_of_first = 0 := by
  induction l generalizing n with
  | nil => intro e he; simp [withCumulative] at he
  | cons a l ih =>
      intro e he
      simp only [withCumulative, List.mem_cons] at he
      rcases he with he | he
      · subst he; rfl
      · exact ih _ e he

theorem counts_withCumulative (n : Nat) (l : List BufferChainElement) :
    (withCumulative n l).map BufferChainElement.element_count =
      runningTotals n (l.map BufferChainElement.element_count) := by
  induction l generalizing n with
  | nil => rfl
  | cons a l ih => simp [withCumulative, runningTotals, ih]

theorem foldl_moveStep (l : List BufferChainElement) (c : BufferChain) (n : Nat) :
    l.foldl moveStep (c, n) =
      ({ elements := c.elements ++ withCumulative n l, closed := c.closed },
       n + totalCount l) := by
  induction l generalizing c n with
  | nil => simp [withCumulative, totalCount]
  | cons e l ih =>
      rw [List.foldl_cons]
      simp only [moveStep]
      rw [ih]
      simp [BufferChain.appendElement, withCumulative, totalCount, Nat.add_assoc]

theorem moveTo_eq (o : OrderedBufferChain) (c : BufferChain) :
    o.moveTo c =
      { elements := c.elements ++
          withCumulative 0 ((o.buffers.map Prod.snd).flatten),
        closed := c.closed } := by
  have main : ∀ (m : List (Nat × List BufferChainElement)) (c : BufferChain) (n : Nat),
      m.foldl (fun acc p => p.2.foldl moveStep acc) (c, n) =
        ({ elements := c.elements ++ withCumulative n ((m.map Prod.snd).flatten),
           closed := c.closed },
         n + totalCount ((m.map Prod.snd).flatten)) := by
    intro m
    induction m with
    | nil => intro c n; simp [withCumulative, totalCount]
    | cons p m ih =>
        intro c n
        rw [List.foldl_cons, foldl_moveStep, ih]
        simp [withCumulative_append, totalCount, List.append_assoc, Nat.add_assoc]
  unfold OrderedBufferChain.moveTo
  rw [main]

theorem keys_sorted_mapAppendAt (m : List (Nat × List BufferChainElement))
    (r : Nat) (e : BufferChainElement)
    (h : List.Chain' (· < ·) (m.map Prod.fst)) :
    List.Chain' (· < ·) ((mapAppendAt m r e).map Prod.fst) := by
  induction m with
  | nil => simp [mapAppendAt]
  | cons p rest ih =>
      obtain ⟨k, v⟩ := p
      simp only [List.map_cons] at h
      by_cases h1 : r < k
      · rw [show mapAppendAt ((k, v) :: rest) r e = (r, [e]) :: (k, v) :: rest from by
            simp [mapAppendAt, h1]]
        simp only [List.map_cons]
        rw [List.chain'_cons]
        exact ⟨h1, h⟩
      · by_cases h2 : r = k
        · rw [show mapAppendAt ((k, v) :: rest) r e = (k, v ++ [e]) :: rest from by
              simp [mapAppendAt, h1, h2]]
          simpa using h
        · rw [show mapAppendAt ((k, v) :: rest) r e = (k, v) :: mapAppendAt rest r e from by
              simp [mapAppendAt, h1, h2]]
          simp only [List.map_cons]
          rw [List.chain'_cons'] at h ⊢
          refine ⟨?_, ih h.2⟩
          intro y hy
          cases rest with
          | nil =>
              simp [mapAppendAt] at hy
              omega
          | cons q rest2 =>
              obtain ⟨k2, v2⟩ := q
              have hk2 : k < k2 := h.1 k2 rfl
              by_cases h3 : r < k2
              · simp [mapAppendAt, h3] at hy
                omega
              · by_cases h4 : r = k2
                · simp [mapAppendAt, h3, h4] at hy
                  omega
                · simp [mapAppendAt, h3, h4] at hy
                  omega

theorem mapFind_eq_nil_of_lt (m : List (Nat × List BufferChainElement)) (r : Nat)
    (h : ∀ k ∈ m.map Prod.fst, r < k) : mapFind m r = [] := by
  induction m with
  | nil => rfl
  | cons p rest ih =>
      obtain ⟨k, v⟩ := p
      have hk : r < k := h k (by simp)
      rw [show mapFind ((k, v) :: rest) r = if r = k then v else mapFind rest r from rfl]
      rw [if_neg (by omega)]
      refine ih ?_
      intro k' hk'
      refine h k' ?_
      simp only [List.map_cons, List.mem_cons]
      exact Or.inr hk'

theorem mapFind_mapAppendAt (m : List (Nat × List BufferChainElement))
    (r r' : Nat) (e : BufferChainElement)
    (hs : List.Chain' (· < ·) (m.map Prod.fst)) :
    mapFind (mapAppendAt m r' e) r =
      if r = r' then mapFind m r ++ [e] else mapFind m r := by
  induction m with
  | nil =>
      by_cases h : r = r' <;> simp [mapAppendAt, mapFind, h]
  | cons p rest ih =>
      obtain ⟨k, v⟩ := p
      simp only [List.map_cons] at hs
      have hp := (List.chain'_iff_pairwise.mp hs)
      rw [List.pairwise_cons] at hp
      have hs' : List.Chain' (· < ·) (rest.map Prod.fst) :=
        (List.chain'_cons'.mp hs).2
      by_cases h1 : r' < k
      · rw [show mapAppendAt ((k, v) :: rest) r' e = (r', [e]) :: (k, v) :: rest from by
            simp [mapAppendAt, h1]]
        by_cases h : r = r'
        · subst h
          rw [show mapFind ((r, [e]) :: (k, v) :: rest) r = [e] from by simp [mapFind]]
          rw [if_pos rfl]
          have hnil : mapFind ((k, v) :: rest) r = [] := by
            rw [show mapFind ((k, v) :: rest) r = if r = k then v else mapFind rest r
                from rfl]
            rw [if_neg (by omega)]
            exact mapFind_eq_nil_of_lt rest r
              (fun k' hk' => lt_trans h1 (hp.1 k' hk'))
          rw [hnil]
          rfl
        · rw [if_neg h]
          simp [mapFind, h]
      · by_cases h2 : r' = k
        · subst h2
          rw [show mapAppendAt ((r', v) :: rest) r' e = (r', v ++ [e]) :: rest from by
              simp [mapAppendAt]]
          by_cases h : r = r'
          · subst h; simp [mapFind]
          · simp [mapFind, h]
        · have h3 : k < r' := by omega
          rw [show mapAppendAt ((k, v) :: rest) r' e = (k, v) :: mapAppendAt rest r' e
              from by simp [mapAppendAt, h1, h2]]
          by_cases h : r = k
          · subst h
            have : ¬ r = r' := by omega
            simp [mapFind, this]
          · rw [show mapFind ((k, v) :: mapAppendAt rest r' e) r =
                mapFind (mapAppendAt rest r' e) r from by simp [mapFind, h]]
            rw [ih hs']
            by_cases h4 : r = r'
            · rw [if_pos h4, if_pos h4]
              simp [mapFind, h]
            · rw [if_neg h4, if_neg h4]
              simp [mapFind, h]

theorem buildOrdered_buffers (ops : List (Nat × BinaryBufferBuilder)) :
    ∀ m : List (Nat × List BufferChainElement),
      (List.foldl (fun o p => (OrderedBufferChain.append o p.1 p.2).1)
          { buffers := m } ops).buffers =
        List.foldl (fun mm p => mapAppendAt mm p.1 (stagedElement p.2)) m ops := by
  induction ops with
  | nil => intro m; rfl
  | cons p rest ih => intro m; exact ih _

theorem foldAppend_inv (ops : List (Nat × BinaryBufferBuilder)) :
    ∀ m : List (Nat × List BufferChainElement),
      List.Chain' (· < ·) (m.map Prod.fst) →
      List.Chain' (· < ·)
        ((List.foldl (fun mm p => mapAppendAt mm p.1 (stagedElement p.2)) m ops).map
          Prod.fst) ∧
      ∀ r, mapFind
          (List.foldl (fun mm p => mapAppendAt mm p.1 (stagedElement p.2)) m ops) r =
        mapFind m r ++
          (ops.filter (fun p => p.1 == r)).map (fun p => stagedElement p.2) := by
  induction ops with
  | nil => intro m hm; exact ⟨hm, fun r => by simp⟩
  | cons p rest ih =>
      intro m hm
      have hm' := keys_sorted_mapAppendAt m p.1 (stagedElement p.2) hm
      obtain ⟨ih1, ih2⟩ := ih (mapAppendAt m p.1 (stagedElement p.2)) hm'
      refine ⟨ih1, ?_⟩
      intro r
      rw [List.foldl_cons, ih2 r]
      rw [mapFind_mapAppendAt m r p.1 (stagedElement p.2) hm]
      by_cases hr : r = p.1
      · rw [if_pos hr, List.filter_cons, if_pos (by simp [hr])]
        simp [List.append_assoc]
      · rw [if_neg hr, List.filter_cons,
          if_neg (by simp only [beq_iff_eq]; exact fun h => hr h.symm)]

/-- C2 as stated is false for a non-empty target: `MoveTo` restarts its
running element counter at zero, ignoring the elements already in the target
chain.  With a target holding 5 elements and one staged block of 1 element,
the transcribed element receives `element_count` 1 although the correct
cumulative element count of the target chain after it is 6. -/
theorem moveTo_nonempty_target_cex :
    sizeSpec
      ((OrderedBufferChain.append { buffers := [] } 0
          { data := [9], elements := 1 }).1.moveTo
        { elements :=
            [{ buffer := { data := [] }, element_count := 5, offset_of_first := 0 }],
          closed := false }) = 1 ∧
    (1 : Nat) ≠ 5 + 1 := by
  exact ⟨rfl, by decide⟩

/-- C2 (amended): `MoveTo` transcribes every staged element into the target
chain in ascending sender-rank order — the staging map's keys are strictly
increasing and, within one rank, the staged elements appear in the order they
were appended to the staging area — recomputing each transcribed element's
`element_count` as the running total of the staged per-block counts.  These
running totals are the correct cumulative element counts of the target chain
when the target starts empty; for a non-empty target the recomputed counts
ignore the target's pre-existing elements. -/
theorem moveTo_transcribes (ops : List (Nat × BinaryBufferBuilder)) :
    List.Chain' (· < ·) ((buildOrdered ops).buffers.map Prod.fst) ∧
    (∀ r, mapFind (buildOrdered ops).buffers r =
      (ops.filter (fun p => p.1 == r)).map (fun p => stagedElement p.2)) ∧
    ((buildOrdered ops).moveTo BufferChain.new).elements =
      withCumulative 0 (((buildOrdered ops).buffers.map Prod.snd).flatten) ∧
    counts ((buildOrdered ops).moveTo BufferChain.new) =
      runningTotals 0
        ((((buildOrdered ops).buffers.map Prod.snd).flatten).map
          BufferChainElement.element_count) ∧
    ((buildOrdered ops).moveTo BufferChain.new).closed = false := by
  have h0 : List.Chain' (· < ·)
      (([] : List (Nat × List BufferChainElement)).map Prod.fst) := by simp
  have hb := buildOrdered_buffers ops []
  obtain ⟨hsorted, hfind⟩ := foldAppend_inv ops [] h0
  have hbuf : (buildOrdered ops).buffers =
      List.foldl (fun mm p => mapAppendAt mm p.1 (stagedElement p.2)) [] ops := hb
  refine ⟨?_, ?_, ?_, ?_, ?_⟩
  · rw [hbuf]; exact hsorted
  · intro r
    rw [hbuf, hfind r]
    rfl
  · rw [moveTo_eq]
    simp [BufferChain.new]
  · rw [moveTo_eq]
    simp [counts, BufferChain.new, counts_withCumulative]
  · rw [moveTo_eq]
    rfl

/-- C7: constructing a `BufferChainElement` with a non-zero offset fails the
internal assertion; the constructor at offset 0 succeeds, and every element
of every chain built from the empty chain by
`BufferChain::Append(BinaryBufferBuilder&)` and by staging-and-merging
through `OrderedBufferChain` has `offset_of_first = 0`, so the assertion is
unreachable through those operations. -/
theorem offset_of_first_always_zero :
    (∀ (b : BinaryBuffer) (cnt ofs : Nat), ofs ≠ 0 →
      BufferChainElement.mkChecked b cnt ofs = none) ∧
    (∀ (b : BinaryBuffer) (cnt : Nat),
      BufferChainElement.mkChecked b cnt 0 =
        some { buffer := b, element_count := cnt, offset_of_first := 0 }) ∧
    (∀ (ops : List BuildOp) (e : BufferChainElement),
      e ∈ (BufferChain.new.applyBuildOps ops).elements → e.offset_of_first = 0) := by
  refine ⟨?_, ?_, ?_⟩
  · intro b cnt ofs h
    simp [BufferChainElement.mkChecked, h]
  · intro b cnt
    rfl
  · have inv : ∀ (ops : List BuildOp) (c : BufferChain),
        (∀ e ∈ c.elements, e.offset_of_first = 0) →
        ∀ e ∈ (c.applyBuildOps ops).elements, e.offset_of_first = 0 := by
      intro ops
      induction ops with
      | nil => intro c h; exact h
      | cons op rest ih =>
          intro c h
          refine ih _ ?_
          cases op with
          | append b =>
              intro e he
              simp only [BufferChain.applyBuildOp, BufferChain.appendBuilder,
                List.mem_append, List.mem_singleton] at he
              rcases he with he | he
              · exact h e he
              · subst he; rfl
          | merge sops =>
              intro e he
              rw [show c.applyBuildOp (BuildOp.merge sops) =
                  (buildOrdered sops).moveTo c from rfl, moveTo_eq] at he
              simp only [List.mem_append] at he
              rcases he with he | he
              · exact h e he
              · exact withCumulative_offset_zero _ _ e he
    intro ops e he
    refine inv ops BufferChain.new ?_ e he
    intro x hx
    simp [BufferChain.new] at hx

/-- C7 witness: the assertion fires at a concrete non-zero offset. -/
theorem offset_of_first_always_zero_witness :
    BufferChainElement.mkChecked { data := [] } 3 1 = none :=
  offset_of_first_always_zero.1 { data := [] } 3 1 (by decide)

/-- C8: single-worker scatter to itself of the local source
`["foo", "bar", "breakfast is the most important meal of the day."]` with
partition offsets `[3]`: the channel iterator yields exactly those three
strings in that order, after which it is finished. -/
theorem scatter_one_worker :
    (let em0 : LocalEmitter := ⟨⟨[], 0⟩, BufferChain.new⟩
     let src := (((em0.emit "foo").emit "bar").flush.emit
       "breakfast is the most important meal of the day.").close
     let it0 : ChainIterator := ⟨scatterSingle src 3, 0, 0⟩
     it0.hasNext = true ∧
     (readRecords it0 3).1 =
       ["foo", "bar", "breakfast is the most important meal of the day."] ∧
     (readRecords it0 3).2.isFinished = true ∧
     (readRecords it0 3).2.hasNext = false) := by
  exact ⟨rfl, rfl, rfl, rfl⟩

/-- C10: `UfsFileBase::close` is idempotent — a first successful close sets
the descriptor to -1; every later call, the destructor's included and
whatever the OS oracle would answer, returns without error and leaves the
state unchanged. -/
theorem ufs_close_idempotent (f : UfsFileBase) (os : Int → Bool)
    (hopen : f.file_des ≠ -1) (hok : os f.file_des = true) :
    f.close os = Except.ok { f with file_des := -1 } ∧
    (∀ os2 : Int → Bool,
      ({ f with file_des := -1 } : UfsFileBase).close os2 =
        Except.ok ({ f with file_des := -1 } : UfsFileBase)) ∧
    (∀ os2 : Int → Bool,
      ({ f with file_des := -1 } : UfsFileBase).destruct os2 =
        Except.ok ({ f with file_des := -1 } : UfsFileBase)) := by
  refine ⟨?_, ?_, ?_⟩
  · unfold UfsFileBase.close
    rw [if_neg hopen, if_pos hok]
  · intro os2
    unfold UfsFileBase.close
    rw [if_pos rfl]
  · intro os2
    unfold UfsFileBase.destruct UfsFileBase.close
    rw [if_pos rfl]

/-- C10 witness at a concrete open descriptor with a succeeding OS close. -/
theorem ufs_close_idempotent_witness :
    UfsFileBase.close { file_des := 3, m_mode := 0, filename := "f" }
        (fun _ => true) =
      Except.ok { file_des := -1, m_mode := 0, filename := "f" } :=
  (ufs_close_idempotent { file_des := 3, m_mode := 0, filename := "f" }
    (fun _ => true) (by decide) rfl).1

end C7A
